import Mathlib

/-!
Verification of the Solana vanity-address generator (src/main.go).

Shallow embedding conventions:
* Go strings are byte sequences; we model a string as a `List Nat` of its byte
  values (all strings handled by the program — Base58 addresses, the user's
  pattern — are ASCII, where byte = code point).
* `strings.ToLower` is modelled byte-wise on the ASCII range, which is exactly
  what Go's `ToLower` does on ASCII input.
* `strings.HasPrefix` / `strings.HasSuffix` are byte-wise comparisons.
* The ed25519 key generator is opaque: a worker's future generator calls are a
  list of `GenOutcome`s (a failed call, or a public/private key byte pair).
* The Base58 encoder models github.com/mr-tron/base58 `Encode`: one '1' per
  leading zero byte, then the big-endian value of the bytes written in base 58
  through the Bitcoin alphabet.
-/

/-- Go `strings.ToLower` on a single ASCII code unit: fold `'A'..'Z'` (65..90)
to `'a'..'z'` (97..122), leave everything else unchanged. -/
def lowerChar (c : Nat) : Nat :=
  if 65 ≤ c ∧ c ≤ 90 then c + 32 else c

/-- Go `strings.ToLower` over a whole string (code-unit-wise map). -/
def toLowerStr (s : List Nat) : List Nat :=
  s.map lowerChar

/-- Go `strings.HasPrefix s p`: `s` starts with `p`. -/
def hasPrefixStr : List Nat → List Nat → Bool
  | _, [] => true
  | [], _ :: _ => false
  | a :: s, b :: p => a == b && hasPrefixStr s p

/-- Go `strings.HasSuffix s p`: `s` ends with `p`. -/
def hasSuffixStr (s p : List Nat) : Bool :=
  hasPrefixStr s.reverse p.reverse

/-- The run's configuration (the CLI flags read in src/main.go lines 64–66):
the desired address beginning `pre` (flag `--prefix`), the desired address
ending `post` (flag `--postfix`), and case sensitivity (`--case-sensitive`). -/
structure SearchConfig where
  pre : List Nat
  post : List Nat
  caseSensitive : Bool
deriving DecidableEq

/-- A found address with its keypair (struct `Result` of src/main.go). -/
structure Result where
  address : List Nat
  publicKey : List Nat
  privateKey : List Nat
deriving DecidableEq

/-- The pattern check, src/main.go lines 105–120: when `caseSensitive` is
false both the address and the configured pattern are lower-cased first; a
non-empty `pre` must start the (checked) address and a non-empty `post` must
end it, each mismatch `continue`ing the loop (= no match). Note the emptiness
guards test the *original* flag values, as the Go code does. -/
def matchesAddr (address : List Nat) (cfg : SearchConfig) : Bool :=
  let checkAddress := if cfg.caseSensitive then address else toLowerStr address
  let checkPre := if cfg.caseSensitive then cfg.pre else toLowerStr cfg.pre
  let checkPost := if cfg.caseSensitive then cfg.post else toLowerStr cfg.post
  if cfg.pre ≠ [] ∧ hasPrefixStr checkAddress checkPre = false then false
  else if cfg.post ≠ [] ∧ hasSuffixStr checkAddress checkPost = false then false
  else true

/-- Char codes of the Base58 (Bitcoin) alphabet
`"123456789ABCDEFGHJKLMNPQRSTUVWXYZabcdefghijkmnopqrstuvwxyz"` used by
github.com/mr-tron/base58. -/
def base58Alphabet : List Nat :=
  [49, 50, 51, 52, 53, 54, 55, 56, 57, 65, 66, 67, 68, 69, 70, 71, 72, 74, 75,
   76, 77, 78, 80, 81, 82, 83, 84, 85, 86, 87, 88, 89, 90, 97, 98, 99, 100,
   101, 102, 103, 104, 105, 106, 107, 109, 110, 111, 112, 113, 114, 115, 116,
   117, 118, 119, 120, 121, 122]

/-- Big-endian value of a byte string. -/
def bytesToNat (bs : List Nat) : Nat :=
  bs.foldl (fun acc b => acc * 256 + b) 0

/-- Little-endian base-58 digits of `n` (`fuel ≥` digit count suffices; the
encoder passes `n` itself, which is enough for every `n`). -/
def b58DigitsAux : Nat → Nat → List Nat
  | 0, _ => []
  | fuel + 1, n => if n = 0 then [] else n % 58 :: b58DigitsAux fuel (n / 58)

/-- Number of leading zero bytes of a byte string. -/
def leadingZeroCount : List Nat → Nat
  | [] => 0
  | b :: bs => if b = 0 then leadingZeroCount bs + 1 else 0

/-- `base58.Encode` of github.com/mr-tron/base58 (src/main.go line 103): one
`'1'` (code 49) per leading zero byte, then the big-endian value of the input
in base 58, most significant digit first, through `base58Alphabet`. -/
def base58Encode (bin : List Nat) : List Nat :=
  let n := bytesToNat bin
  List.replicate (leadingZeroCount bin) 49 ++
    (b58DigitsAux n n).reverse.map (fun d => base58Alphabet.getD d 0)

/-- One call to `ed25519.GenerateKey(rand.Reader)` (src/main.go line 98) as
the worker observes it: either the entropy source failed, or it produced a
public/private key byte pair. -/
inductive GenOutcome
  | genFail
  | genKey (publicKey privateKey : List Nat)
deriving DecidableEq

/-- The pure tail of one worker-loop iteration after the attempt counter is
bumped (src/main.go lines 98–128): a failed generation yields nothing
(`continue`), otherwise the address is the Base58 encoding of the public key
and a `Result` is built exactly when the pattern matches. -/
def iterate (cfg : SearchConfig) (g : GenOutcome) : Option Result :=
  match g with
  | .genFail => none
  | .genKey pk sk =>
    let address := base58Encode pk
    if matchesAddr address cfg then some ⟨address, pk, sk⟩ else none

/-- The worker loop of src/main.go lines 90–134 run sequentially (a single
worker, cancellation never signalled from outside) on a deterministic list of
generator outcomes, carrying the shared attempt counter: each iteration first
increments the counter (line 97, before key generation), then generates,
encodes and matches; the loop stops at the first match (the worker publishes
and returns) or when the outcome list is exhausted. Returns the final counter
and the published result, if any. -/
def workerLoop (cfg : SearchConfig) : List GenOutcome → Nat → Nat × Option Result
  | [], n => (n, none)
  | g :: rest, n =>
    match iterate cfg g with
    | some r => (n + 1, some r)
    | none => workerLoop cfg rest (n + 1)

/-- The decimal digit `d` (0–9) as a character. -/
def digitCh (d : Nat) : Char :=
  Char.ofNat (48 + d)

/-- Decimal digits of `n`, most significant first (`fuel ≥` digit count
suffices; `decStr` passes `n + 1`, which always is). -/
def decDigitsAux : Nat → Nat → List Char
  | 0, _ => []
  | fuel + 1, n =>
    if n < 10 then [digitCh n]
    else decDigitsAux fuel (n / 10) ++ [digitCh (n % 10)]

/-- The decimal rendering of `n`, as Go's `encoding/json` writes an int. -/
def decStr (n : Nat) : List Char :=
  decDigitsAux (n + 1) n

/-- The element lines of `json.MarshalIndent(ints, "", "  ")`: each element
indented by two spaces, elements separated by `",\n"`. -/
def itemsCh : List Nat → List Char
  | [] => []
  | [b] => ' ' :: ' ' :: decStr b
  | b :: bs => (' ' :: ' ' :: decStr b) ++ (',' :: '\n' :: itemsCh bs)

/-- The full text of `json.MarshalIndent(ints, "", "  ")` for an `[]int`
value: `"[]"` when empty, otherwise `'['`, a newline, the indented elements,
a newline and `']'`. -/
def renderIntArrayCh (l : List Nat) : List Char :=
  match l with
  | [] => ['[', ']']
  | _ :: _ => '[' :: '\n' :: (itemsCh l ++ ['\n', ']'])

/-- `json.MarshalIndent(ints, "", "  ")` (src/main.go line 34). Marshalling a
slice of ints has no failure mode in Go (`json.Marshal` fails only on
unsupported types/values, which an `[]int` cannot contain), so the error arm
of the Go pair is never taken; the model keeps the `Except` shape of the Go
`(data, err)` return. -/
def jsonMarshalIndentInts (ints : List Nat) : Except String String :=
  .ok (String.mk (renderIntArrayCh ints))

/-- `privateKeyToJSON` of src/main.go lines 29–39: copy the private key's
bytes into an int slice (`ints[i] = int(b)`, value-preserving — the model's
bytes already are `Nat`s) and marshal it with 2-space indentation, forwarding
a marshalling error if one occurred. -/
def privateKeyToJSON (privateKey : List Nat) : Except String String :=
  match jsonMarshalIndentInts privateKey with
  | .error e => .error e
  | .ok data => .ok data

/-- Whitespace as JSON tokenisation skips it. -/
def isWsCh (c : Char) : Bool :=
  (c == ' ') || (c == '\n') || (c == '\t') || (c == '\r')

/-- Drop leading JSON whitespace. -/
def skipWs : List Char → List Char
  | [] => []
  | c :: rest => if isWsCh c then skipWs rest else c :: rest

/-- Is `c` a decimal digit character? -/
def isDigitCh (c : Char) : Bool :=
  48 ≤ c.toNat && c.toNat ≤ 57

/-- Value of a digit character. -/
def digitVal (c : Char) : Nat :=
  c.toNat - 48

/-- Consume a maximal run of digit characters, folding them onto `acc`. -/
def parseNatAux : List Char → Nat → Nat × List Char
  | [], acc => (acc, [])
  | c :: rest, acc =>
    if isDigitCh c then parseNatAux rest (acc * 10 + digitVal c)
    else (acc, c :: rest)

/-- Parse a decimal number at the head of the input (at least one digit). -/
def parseNatCh : List Char → Option (Nat × List Char)
  | [] => none
  | c :: rest =>
    if isDigitCh c then some (parseNatAux (c :: rest) 0) else none

/-- Parse the comma-separated number items of a JSON int array up to and
including the closing `']'`, requiring only whitespace afterwards. `fuel`
bounds the item count (callers pass the input length). -/
def parseItems : Nat → List Char → Option (List Nat)
  | 0, _ => none
  | fuel + 1, cs =>
    match parseNatCh (skipWs cs) with
    | none => none
    | some (n, rest) =>
      match skipWs rest with
      | c :: rest2 =>
        if c = ',' then
          match parseItems fuel rest2 with
          | some ns => some (n :: ns)
          | none => none
        else if c = ']' then
          if skipWs rest2 = [] then some [n] else none
        else none
      | [] => none

/-- A standard JSON parse of a complete document holding one array of decimal
integers (the format consumed by wallet tooling importing the printed key):
whitespace-tolerant, `none` on any malformed input. -/
def parseIntArray (cs : List Char) : Option (List Nat) :=
  match skipWs cs with
  | c :: rest =>
    if c = '[' then
      match skipWs rest with
      | c2 :: rest2 =>
        if c2 = ']' then (if skipWs rest2 = [] then some [] else none)
        else parseItems cs.length rest
      | [] => none
    else none
  | [] => none

/-- Display form of a modelled string (used only to print the report). -/
def codesStr (l : List Nat) : String :=
  String.mk (l.map Char.ofNat)

/-- The final report of src/main.go lines 143–153: the found address, the
Base58 public and private keys, and the private key as a JSON array; if
`privateKeyToJSON` returned an error the report is aborted with the
serialization error instead (lines 148–151). The attempt/elapsed line carries
no `Result` data and is omitted. -/
def finalReport (r : Result) : Except String (List String) :=
  match privateKeyToJSON r.privateKey with
  | .error e => .error ("转换私钥为JSON失败: " ++ e)
  | .ok pkJSON =>
    .ok ["找到地址: " ++ codesStr r.address,
         "公钥 (Base58): " ++ codesStr (base58Encode r.publicKey),
         "私钥 (Base58): " ++ codesStr (base58Encode r.privateKey),
         "私钥 (JSON 数组格式): " ++ pkJSON]

/-- Control state of one worker goroutine (src/main.go lines 88–135):
`running` = at the top of the loop, about to poll `ctx.Done()`; `working` =
past the poll, about to run the iteration body; `atPublish r` = found a
match, blocked at the `select` of lines 123–133; `postSend` = the send into
`resultCh` succeeded, `cancel()` (line 129) not yet executed; `exited` =
returned. -/
inductive WStatus
  | running
  | working
  | atPublish (r : Result)
  | postSend
  | exited
deriving DecidableEq

/-- One worker: its control state, the outcomes its future
`ed25519.GenerateKey` calls will produce, and (ghost) how many sends into
`resultCh` it has completed. -/
structure WorkerState where
  status : WStatus
  keys : List GenOutcome
  sent : Nat
deriving DecidableEq

/-- The main goroutine around the channel read of line 139: `waiting` =
blocked at `result := <-resultCh`; `gotResult r` = past it, holding `r`. -/
inductive CoordStatus
  | waiting
  | gotResult (r : Result)
deriving DecidableEq

/-- Global state of the search: the read-only config, the workers, the
capacity-one buffer of `resultCh`, the `context` cancellation flag, the
shared atomic attempt counter and the coordinator. -/
structure SysState where
  cfg : SearchConfig
  workers : List WorkerState
  slot : Option Result
  cancelled : Bool
  counter : Nat
  coord : CoordStatus
deriving DecidableEq

/-- Replace worker `i`. -/
def setWorker (s : SysState) (i : Nat) (w : WorkerState) : SysState :=
  { s with workers := s.workers.set i w }

/-- One interleaving step of the system of src/main.go lines 78–140.
Worker rules (worker `i`):
* `cancelExit` / `cancelPass`: the non-blocking poll of `ctx.Done()` (lines
  92–96) — return if cancelled, fall through otherwise.
* `iterSkip` / `iterFound`: one iteration body (lines 97–120): the counter is
  incremented (line 97, before key generation) and the head generator outcome
  is consumed; on `iterate = none` (generation failed, or no match) the
  worker is back at the top of the loop, on a match it stands at the `select`.
* `publishSend`: the `select` takes `resultCh <- Result{...}` (line 124),
  enabled exactly when the capacity-one buffer is free.
* `publishDiscard`: the `select` takes `<-ctx.Done()` (line 131), enabled
  exactly when cancellation is signalled; the result is discarded and neither
  the slot nor the cancellation flag is touched.
* `sendCancel`: the winning worker runs `cancel()` (line 129) and returns.
Coordinator rule:
* `receive`: `result := <-resultCh` (line 139), enabled when the buffer holds
  a value; the buffer is drained. -/
inductive Step : SysState → SysState → Prop
  | cancelExit (s : SysState) (i : Nat) (w : WorkerState)
      (hw : s.workers[i]? = some w) (hs : w.status = .running)
      (hc : s.cancelled = true) :
      Step s (setWorker s i { w with status := .exited })
  | cancelPass (s : SysState) (i : Nat) (w : WorkerState)
      (hw : s.workers[i]? = some w) (hs : w.status = .running)
      (hc : s.cancelled = false) :
      Step s (setWorker s i { w with status := .working })
  | iterSkip (s : SysState) (i : Nat) (w : WorkerState) (g : GenOutcome)
      (rest : List GenOutcome) (hw : s.workers[i]? = some w)
      (hs : w.status = .working) (hk : w.keys = g :: rest)
      (hres : iterate s.cfg g = none) :
      Step s { setWorker s i { w with status := .running, keys := rest } with
               counter := s.counter + 1 }
  | iterFound (s : SysState) (i : Nat) (w : WorkerState) (g : GenOutcome)
      (rest : List GenOutcome) (r : Result) (hw : s.workers[i]? = some w)
      (hs : w.status = .working) (hk : w.keys = g :: rest)
      (hres : iterate s.cfg g = some r) :
      Step s { setWorker s i { w with status := .atPublish r, keys := rest } with
               counter := s.counter + 1 }
  | publishSend (s : SysState) (i : Nat) (w : WorkerState) (r : Result)
      (hw : s.workers[i]? = some w) (hs : w.status = .atPublish r)
      (hslot : s.slot = none) :
      Step s { setWorker s i { w with status := .postSend, sent := w.sent + 1 } with
               slot := some r }
  | publishDiscard (s : SysState) (i : Nat) (w : WorkerState) (r : Result)
      (hw : s.workers[i]? = some w) (hs : w.status = .atPublish r)
      (hc : s.cancelled = true) :
      Step s (setWorker s i { w with status := .exited })
  | sendCancel (s : SysState) (i : Nat) (w : WorkerState)
      (hw : s.workers[i]? = some w) (hs : w.status = .postSend) :
      Step s { setWorker s i { w with status := .exited } with cancelled := true }
  | receive (s : SysState) (r : Result)
      (hc : s.coord = .waiting) (hslot : s.slot = some r) :
      Step s { s with slot := none, coord := .gotResult r }

/-- States reachable from `s₀` by interleaving steps. -/
inductive Reachable (s₀ : SysState) : SysState → Prop
  | refl : Reachable s₀ s₀
  | step {s s' : SysState} : Reachable s₀ s → Step s s' → Reachable s₀ s'

/-- A freshly spawned worker with generator stream `ks`. -/
def initWorker (ks : List GenOutcome) : WorkerState :=
  ⟨.running, ks, 0⟩

/-- The state right after the spawn loop of src/main.go lines 86–136:
`numCPU` workers (the value `runtime.NumCPU()` returned), empty result
buffer, cancellation not signalled, counter zero, coordinator blocked at the
channel read. `streams.getD i []` is worker `i`'s generator stream. -/
def initState (cfg : SearchConfig) (numCPU : Nat)
    (streams : List (List GenOutcome)) : SysState :=
  { cfg := cfg
    workers := (List.range numCPU).map fun i => initWorker (streams.getD i [])
    slot := none
    cancelled := false
    counter := 0
    coord := .waiting }

/-- The CLI action of src/main.go lines 63–141 up to the spawn: the only
validation (lines 68–70) rejects a configuration whose pattern flags are both
empty, *before* the channel, the context or any worker exists; otherwise the
search system is set up with `runtime.NumCPU()` workers. No other
configuration check exists — in particular none on the worker count. -/
def action (cfg : SearchConfig) (numCPU : Nat)
    (streams : List (List GenOutcome)) : Except String SysState :=
  if cfg.pre = [] ∧ cfg.post = [] then
    .error "必须至少指定 --prefix 或 --postfix 其中之一"
  else
    .ok (initState cfg numCPU streams)

/-- Total number of completed sends into `resultCh` across all workers. -/
def sentTotal (s : SysState) : Nat :=
  (s.workers.map WorkerState.sent).sum

/-- How many results the coordinator has received (its single read). -/
def receivedCount : CoordStatus → Nat
  | .waiting => 0
  | .gotResult _ => 1

/-- How many results sit undelivered in `resultCh`'s buffer. -/
def slotCount (s : SysState) : Nat :=
  match s.slot with
  | none => 0
  | some _ => 1

/-- The spec's `lower_fields(P)`: `P` with its prefix and suffix fields
lower-cased (the case-sensitivity flag untouched). -/
def lowerFields (cfg : SearchConfig) : SearchConfig :=
  { cfg with pre := toLowerStr cfg.pre, post := toLowerStr cfg.post }

/-- Per-worker publish accounting: a worker that has not yet completed its
send (it is running, working or standing at the `select`) has sent nothing,
and one that has (it is past the send or gone) has sent at most once. -/
def sentOK (w : WorkerState) : Prop :=
  match w.status with
  | .postSend => w.sent ≤ 1
  | .exited => w.sent ≤ 1
  | _ => w.sent = 0

/-- A `Result` as the worker of src/main.go lines 102–128 builds it: its
address field is exactly the Base58 encoding of its public key. -/
def goodResult (r : Result) : Prop :=
  r.address = base58Encode r.publicKey

/-- Every `Result` value held anywhere in the system — at a worker's
`select`, in the channel buffer, or received by the coordinator — is good. -/
def resultsOK (s : SysState) : Prop :=
  (∀ w ∈ s.workers, ∀ r, w.status = .atPublish r → goodResult r) ∧
  (∀ r, s.slot = some r → goodResult r) ∧
  (∀ r, s.coord = .gotResult r → goodResult r)

/-- Demo configuration: prefix `"x"` (code 120), case-sensitive. -/
def demoCfg : SearchConfig :=
  ⟨[120], [], true⟩

/-- Demo generator outcome: a keypair whose address encodes to `"xyz"`. -/
def demoGen : GenOutcome :=
  .genKey [2, 223, 165] [9]

/-- The result the demo worker publishes. -/
def demoResult : Result :=
  ⟨[120, 121, 122], [2, 223, 165], [9]⟩

/-- The state of the demo run after its single worker has found, published
and signalled cancellation, and the coordinator has received the result. -/
def demoFinal : SysState :=
  { cfg := demoCfg
    workers := [⟨.exited, [], 1⟩]
    slot := none
    cancelled := true
    counter := 1
    coord := .gotResult demoResult }

/-! ## Bridging lemmas for the pattern matcher -/

theorem hasPrefixStr_nil (s : List Nat) : hasPrefixStr s [] = true := by
  cases s <;> rfl

theorem hasPrefixStr_nil_cons (b : Nat) (p : List Nat) :
    hasPrefixStr [] (b :: p) = false := rfl

theorem hasPrefixStr_cons_cons (a b : Nat) (s p : List Nat) :
    hasPrefixStr (a :: s) (b :: p) = (a == b && hasPrefixStr s p) := rfl

theorem hasPrefixStr_iff (s p : List Nat) : hasPrefixStr s p = true ↔ p <+: s := by
  induction p generalizing s with
  | nil => simp [hasPrefixStr_nil, List.nil_prefix]
  | cons b p ih =>
    cases s with
    | nil => simp [hasPrefixStr_nil_cons, List.prefix_nil]
    | cons a s =>
      rw [hasPrefixStr_cons_cons, Bool.and_eq_true, beq_iff_eq, ih, List.cons_prefix_cons]
      exact and_congr_left fun _ => eq_comm

theorem hasSuffixStr_iff (s p : List Nat) : hasSuffixStr s p = true ↔ p <:+ s := by
  rw [hasSuffixStr, hasPrefixStr_iff, List.reverse_prefix]

theorem lowerChar_idem (c : Nat) : lowerChar (lowerChar c) = lowerChar c := by
  unfold lowerChar
  split_ifs <;> omega

theorem toLowerStr_idem (s : List Nat) : toLowerStr (toLowerStr s) = toLowerStr s := by
  simp [toLowerStr, List.map_map, Function.comp_def, lowerChar_idem]

theorem toLowerStr_eq_nil (s : List Nat) : toLowerStr s = [] ↔ s = [] := by
  simp [toLowerStr]

/-- The two-test core of `matchesAddr` over already-case-folded strings. -/
theorem matches_core_iff (A P Q : List Nat) (pne qne : Prop)
    [Decidable pne] [Decidable qne] :
    (if pne ∧ hasPrefixStr A P = false then false
     else if qne ∧ hasSuffixStr A Q = false then false
     else true) = true ↔ ((pne → P <+: A) ∧ (qne → Q <:+ A)) := by
  split_ifs with h1 h2
  · simp only [Bool.false_eq_true, false_iff, not_and_or]
    left
    intro himp
    have hb := himp h1.1
    rw [← hasPrefixStr_iff] at hb
    rw [h1.2] at hb
    exact Bool.false_ne_true hb
  · simp only [Bool.false_eq_true, false_iff, not_and_or]
    right
    intro himp
    have hb := himp h2.1
    rw [← hasSuffixStr_iff] at hb
    rw [h2.2] at hb
    exact Bool.false_ne_true hb
  · simp only [true_iff]
    constructor
    · intro hne
      rw [← hasPrefixStr_iff]
      rcases not_and_or.mp h1 with h | h
      · exact absurd hne h
      · rcases Bool.eq_false_or_eq_true (hasPrefixStr A P) with hb | hb
        · exact hb
        · exact absurd hb h
    · intro hne
      rw [← hasSuffixStr_iff]
      rcases not_and_or.mp h2 with h | h
      · exact absurd hne h
      · rcases Bool.eq_false_or_eq_true (hasSuffixStr A Q) with hb | hb
        · exact hb
        · exact absurd hb h

/-- C2: the pattern-match predicate returns true iff, after lower-casing both
sides when `caseSensitive` is false (and comparing as-is otherwise), the
address starts with the configured prefix whenever that is non-empty and ends
with the configured suffix whenever that is non-empty; an empty field makes
its check vacuously true. (The definition of `matchesAddr` mirrors the
short-circuit order of src/main.go lines 115–120: the prefix test's
`continue` fires before the suffix is ever examined.) -/
theorem matchesAddr_iff (address : List Nat) (cfg : SearchConfig) :
    matchesAddr address cfg = true ↔
      ((cfg.pre ≠ [] →
          (if cfg.caseSensitive then cfg.pre else toLowerStr cfg.pre) <+:
            (if cfg.caseSensitive then address else toLowerStr address)) ∧
       (cfg.post ≠ [] →
          (if cfg.caseSensitive then cfg.post else toLowerStr cfg.post) <:+
            (if cfg.caseSensitive then address else toLowerStr address))) := by
  cases hcs : cfg.caseSensitive with
  | true =>
    simpa only [matchesAddr, hcs, if_true] using
      matches_core_iff address cfg.pre cfg.post (cfg.pre ≠ []) (cfg.post ≠ [])
  | false =>
    simpa only [matchesAddr, hcs, Bool.false_eq_true, if_false] using
      matches_core_iff (toLowerStr address) (toLowerStr cfg.pre)
        (toLowerStr cfg.post) (cfg.pre ≠ []) (cfg.post ≠ [])

/-- C3: with `caseSensitive = false` the verdict on `(A, P)` equals the
verdict on the lower-cased address against the pattern with lower-cased
fields — case folding is applied uniformly to both sides. -/
theorem matchesAddr_lower_invariant (address : List Nat) (cfg : SearchConfig)
    (h : cfg.caseSensitive = false) :
    matchesAddr address cfg = matchesAddr (toLowerStr address) (lowerFields cfg) := by
  simp only [matchesAddr, lowerFields, h, Bool.false_eq_true, if_false, ne_eq,
    toLowerStr_idem, toLowerStr_eq_nil]

/-- Witness for C3 at the spec's own scenario: `prefix = "aaa"`,
`caseSensitive = false`, address `"AAAxyz123"` — both sides of the fold
agree (and match). -/
theorem matchesAddr_lower_invariant_witness :
    matchesAddr [65, 65, 65, 120, 121, 122, 49, 50, 51] ⟨[97, 97, 97], [], false⟩ =
      matchesAddr (toLowerStr [65, 65, 65, 120, 121, 122, 49, 50, 51])
        (lowerFields ⟨[97, 97, 97], [], false⟩) :=
  matchesAddr_lower_invariant [65, 65, 65, 120, 121, 122, 49, 50, 51]
    ⟨[97, 97, 97], [], false⟩ rfl

/-! ## Configuration validation and the worker count -/

/-- C4: a configuration whose prefix and suffix are both empty is rejected
synchronously with the validation error of src/main.go lines 68–70, whatever
the worker count and whatever the entropy source would have produced; the
`.ok` arm — the only place the result channel, the context and the workers
come into existence — is never reached, so no worker is spawned and no key
generation occurs. -/
theorem action_rejects_empty_pattern (cfg : SearchConfig) (numCPU : Nat)
    (streams : List (List GenOutcome)) (hpre : cfg.pre = []) (hpost : cfg.post = []) :
    action cfg numCPU streams = .error "必须至少指定 --prefix 或 --postfix 其中之一" := by
  simp [action, hpre, hpost]

/-- Witness for C4: the all-empty configuration is rejected. -/
theorem action_rejects_empty_pattern_witness :
    action ⟨[], [], true⟩ 4 [] = .error "必须至少指定 --prefix 或 --postfix 其中之一" :=
  action_rejects_empty_pattern ⟨[], [], true⟩ 4 [] rfl rfl

/-- Counterexample to C7: with a worker count of 0 (`workerCount <= 0`) and a
valid pattern, the action does *not* fail with a configuration error — it
proceeds and sets up a search with zero workers, because src/main.go never
validates the worker count. -/
theorem action_zero_workers_not_error :
    action ⟨[65], [], true⟩ 0 [] = .ok (initState ⟨[65], [], true⟩ 0 []) ∧
    (initState ⟨[65], [], true⟩ 0 []).workers = [] := by
  constructor <;> rfl

/-- C7 (amended): the coordinator performs no worker-count validation — its
only error is the empty-pattern rejection — and it spawns exactly `numCPU`
workers, `numCPU` being whatever `runtime.NumCPU()` returned (the host's
available parallel execution units, which Go guarantees to be ≥ 1, so a
non-positive count never actually arises). -/
theorem action_spawns_numCPU (cfg : SearchConfig) (numCPU : Nat)
    (streams : List (List GenOutcome)) :
    (∀ e, action cfg numCPU streams = .error e → cfg.pre = [] ∧ cfg.post = []) ∧
    (∀ s, action cfg numCPU streams = .ok s → s.workers.length = numCPU) := by
  constructor
  · intro e he
    by_cases h : cfg.pre = [] ∧ cfg.post = []
    · exact h
    · rw [action, if_neg h] at he
      exact absurd he (by simp)
  · intro s hs
    by_cases h : cfg.pre = [] ∧ cfg.post = []
    · rw [action, if_pos h] at hs
      exact absurd hs (by simp)
    · rw [action, if_neg h] at hs
      have : s = initState cfg numCPU streams := by
        injection hs with h'
        exact h'.symm
      subst this
      simp [initState]

/-- Witness for C7's amended theorem: with one CPU exactly one worker is
spawned. -/
theorem action_spawns_numCPU_witness :
    (initState ⟨[65], [], true⟩ 1 []).workers.length = 1 :=
  (action_spawns_numCPU ⟨[65], [], true⟩ 1 []).2 (initState ⟨[65], [], true⟩ 1 []) rfl

/-! ## The worker loop run on deterministic key sequences -/

/-- C6: a failed key generation is absorbed locally — `iterate` yields
nothing for it, and the worker loop simply moves on to the next iteration
(with the attempt counter bumped, since line 97 runs before the generation):
no error value exists in the loop's codomain at all, so the failure can
neither escape the loop nor terminate the search. -/
theorem workerLoop_absorbs_genFail (cfg : SearchConfig) (rest : List GenOutcome) (n : Nat) :
    iterate cfg .genFail = none ∧
    workerLoop cfg (.genFail :: rest) n = workerLoop cfg rest (n + 1) := by
  constructor
  · rfl
  · rfl

/-- C5: with `prefix = "AAA"` (`"AAA"` = codes 65,65,65), `caseSensitive =
true`, a single worker consuming keys whose derived addresses are in order
`"xyz"`, `"bbb"`, `"AAAxyz123"`: the first two iterations produce no result,
the third is published with address `"AAAxyz123"`, and the attempt counter
finishes at 3 (one increment at the start of each of the three iterations,
before key generation). -/
theorem workerLoop_scenario_AAA :
    base58Encode [2, 223, 165] = [120, 121, 122] ∧
    base58Encode [1, 198, 158] = [98, 98, 98] ∧
    base58Encode [4, 42, 172, 49, 61, 19, 196] =
      [65, 65, 65, 120, 121, 122, 49, 50, 51] ∧
    iterate ⟨[65, 65, 65], [], true⟩ (.genKey [2, 223, 165] [11]) = none ∧
    iterate ⟨[65, 65, 65], [], true⟩ (.genKey [1, 198, 158] [12]) = none ∧
    workerLoop ⟨[65, 65, 65], [], true⟩
        [.genKey [2, 223, 165] [11], .genKey [1, 198, 158] [12],
         .genKey [4, 42, 172, 49, 61, 19, 196] [13]] 0 =
      (3, some ⟨[65, 65, 65, 120, 121, 122, 49, 50, 51],
                [4, 42, 172, 49, 61, 19, 196], [13]⟩) := by
  refine ⟨by decide, by decide, by decide, by decide, by decide, by decide⟩

/-! ## The final report and the private-key JSON -/

/-- C9: `privateKeyToJSON` is total — marshalling an int slice cannot fail —
so it returns `.ok` on every private key, the `SerializationError` arm of
src/main.go lines 148–151 is unreachable, and a found `Result` is always
fully printed (the report is `.ok` with all four lines). -/
theorem finalReport_total (r : Result) :
    (privateKeyToJSON r.privateKey).isOk = true ∧ (finalReport r).isOk = true := by
  constructor
  · rfl
  · rfl

/-! ## JSON round-trip: rendering then parsing reproduces the bytes -/

set_option maxRecDepth 4096 in
theorem decStr_spec : ∀ b : Fin 256,
    decStr b.val ≠ [] ∧ (∀ c ∈ decStr b.val, isDigitCh c = true) ∧
      List.foldl (fun a c => a * 10 + digitVal c) 0 (decStr b.val) = b.val := by
  decide

theorem skipWs_cons (c : Char) (rest : List Char) :
    skipWs (c :: rest) = if isWsCh c then skipWs rest else c :: rest := rfl

theorem skipWs_append_ws (pre cs : List Char) (h : ∀ c ∈ pre, isWsCh c = true) :
    skipWs (pre ++ cs) = skipWs cs := by
  induction pre with
  | nil => rfl
  | cons c pre ih =>
    rw [List.cons_append, skipWs_cons, if_pos (h c (List.mem_cons_self c pre))]
    exact ih fun x hx => h x (List.mem_cons_of_mem c hx)

theorem not_ws_of_digit (c : Char) (h : isDigitCh c = true) : isWsCh c = false := by
  simp only [isDigitCh, Bool.and_eq_true, decide_eq_true_eq] at h
  have hs : c ≠ ' ' := by rintro rfl; exact absurd h.1 (by decide)
  have hn : c ≠ '\n' := by rintro rfl; exact absurd h.1 (by decide)
  have ht : c ≠ '\t' := by rintro rfl; exact absurd h.1 (by decide)
  have hr : c ≠ '\r' := by rintro rfl; exact absurd h.1 (by decide)
  simp [isWsCh, hs, hn, ht, hr]

theorem digit_ne_rbracket (c : Char) (h : isDigitCh c = true) : c ≠ ']' := by
  rintro rfl
  exact absurd h (by decide)

theorem skipWs_decStr (b : Nat) (hb : b < 256) (rest : List Char) :
    skipWs (decStr b ++ rest) = decStr b ++ rest := by
  obtain ⟨hne, hdig, -⟩ := decStr_spec ⟨b, hb⟩
  replace hne : decStr b ≠ [] := hne
  replace hdig : ∀ c ∈ decStr b, isDigitCh c = true := hdig
  cases hd : decStr b with
  | nil => exact absurd hd hne
  | cons c ds =>
    rw [hd] at hdig
    rw [List.cons_append, skipWs_cons,
      if_neg (by simp [not_ws_of_digit c (hdig c (List.mem_cons_self c ds))])]

theorem parseNatAux_cons (c : Char) (rest : List Char) (acc : Nat) :
    parseNatAux (c :: rest) acc =
      if isDigitCh c then parseNatAux rest (acc * 10 + digitVal c)
      else (acc, c :: rest) := rfl

theorem parseNatAux_digits (ds : List Char) (h : ∀ c ∈ ds, isDigitCh c = true) :
    ∀ (rest : List Char) (acc : Nat),
      parseNatAux (ds ++ rest) acc =
        parseNatAux rest (ds.foldl (fun a c => a * 10 + digitVal c) acc) := by
  induction ds with
  | nil => intro rest acc; rfl
  | cons c ds ih =>
    intro rest acc
    rw [List.cons_append, parseNatAux_cons, if_pos (h c (List.mem_cons_self c ds)),
      ih (fun x hx => h x (List.mem_cons_of_mem c hx))]
    rfl

theorem parseNatAux_stop (cs : List Char) (acc : Nat)
    (h : ∀ c, cs.head? = some c → isDigitCh c = false) :
    parseNatAux cs acc = (acc, cs) := by
  cases cs with
  | nil => rfl
  | cons c rest =>
    have hc := h c rfl
    rw [parseNatAux_cons, if_neg (by simp [hc])]

theorem parseNatCh_cons (c : Char) (rest : List Char) :
    parseNatCh (c :: rest) =
      if isDigitCh c then some (parseNatAux (c :: rest) 0) else none := rfl

theorem parseNatCh_decStr (b : Nat) (hb : b < 256) (rest : List Char)
    (hrest : ∀ c, rest.head? = some c → isDigitCh c = false) :
    parseNatCh (decStr b ++ rest) = some (b, rest) := by
  obtain ⟨hne, hdig, hval⟩ := decStr_spec ⟨b, hb⟩
  replace hne : decStr b ≠ [] := hne
  replace hdig : ∀ c ∈ decStr b, isDigitCh c = true := hdig
  replace hval : List.foldl (fun a c => a * 10 + digitVal c) 0 (decStr b) = b := hval
  cases hd : decStr b with
  | nil => exact absurd hd hne
  | cons c ds =>
    rw [hd] at hdig hval
    rw [List.cons_append, parseNatCh_cons, if_pos (hdig c (List.mem_cons_self c ds)),
      ← List.cons_append, parseNatAux_digits (c :: ds) hdig rest 0, hval,
      parseNatAux_stop rest b hrest]

theorem itemsCh_single (b : Nat) : itemsCh [b] = ' ' :: ' ' :: decStr b := rfl

theorem itemsCh_pair (b b' : Nat) (bs : List Nat) :
    itemsCh (b :: b' :: bs) =
      (' ' :: ' ' :: decStr b) ++ (',' :: '\n' :: itemsCh (b' :: bs)) := rfl

theorem parseItems_succ (fuel : Nat) (cs : List Char) :
    parseItems (fuel + 1) cs =
      match parseNatCh (skipWs cs) with
      | none => none
      | some (n, rest) =>
        match skipWs rest with
        | c :: rest2 =>
          if c = ',' then
            match parseItems fuel rest2 with
            | some ns => some (n :: ns)
            | none => none
          else if c = ']' then
            if skipWs rest2 = [] then some [n] else none
          else none
        | [] => none := rfl

theorem parseItems_itemsCh (l : List Nat) :
    l ≠ [] → (∀ b ∈ l, b < 256) →
    ∀ (fuel : Nat), l.length ≤ fuel →
    ∀ (pre : List Char), (∀ c ∈ pre, isWsCh c = true) →
      parseItems fuel (pre ++ (itemsCh l ++ ['\n', ']'])) = some l := by
  induction l with
  | nil => intro h; exact absurd rfl h
  | cons b bs ih =>
    intro _ hb fuel hfuel pre hpre
    have hb0 : b < 256 := hb b (List.mem_cons_self b bs)
    obtain ⟨fuel, rfl⟩ : ∃ f, fuel = f + 1 :=
      ⟨fuel - 1, by simp at hfuel; omega⟩
    have hws : ∀ c ∈ pre ++ [' ', ' '], isWsCh c = true := by
      intro c hc
      rcases List.mem_append.mp hc with h | h
      · exact hpre c h
      · simp at h
        subst h
        decide
    cases bs with
    | nil =>
      have hin : pre ++ (itemsCh [b] ++ ['\n', ']']) =
          (pre ++ [' ', ' ']) ++ (decStr b ++ ['\n', ']']) := by
        simp [itemsCh_single]
      rw [hin, parseItems_succ, skipWs_append_ws _ _ hws, skipWs_decStr b hb0,
        parseNatCh_decStr b hb0 ['\n', ']']
          (fun c hc => by
            simp only [List.head?_cons, Option.some.injEq] at hc
            subst hc
            decide)]
      rfl
    | cons b' bs' =>
      have hin : pre ++ (itemsCh (b :: b' :: bs') ++ ['\n', ']']) =
          (pre ++ [' ', ' ']) ++
            (decStr b ++ (',' :: '\n' :: (itemsCh (b' :: bs') ++ ['\n', ']']))) := by
        simp [itemsCh_pair]
      have hrec : parseItems fuel (['\n'] ++ (itemsCh (b' :: bs') ++ ['\n', ']'])) =
          some (b' :: bs') := by
        refine ih (by simp) (fun x hx => hb x (List.mem_cons_of_mem b hx)) fuel ?_ ['\n'] ?_
        · simp at hfuel ⊢
          omega
        · intro c hc
          simp at hc
          subst hc
          decide
      rw [hin, parseItems_succ, skipWs_append_ws _ _ hws, skipWs_decStr b hb0,
        parseNatCh_decStr b hb0 (',' :: '\n' :: (itemsCh (b' :: bs') ++ ['\n', ']']))
          (fun c hc => by
            simp only [List.head?_cons, Option.some.injEq] at hc
            subst hc
            decide)]
      simp only [List.singleton_append] at hrec
      have hKomma : skipWs (',' :: '\n' :: (itemsCh (b' :: bs') ++ ['\n', ']'])) =
          ',' :: '\n' :: (itemsCh (b' :: bs') ++ ['\n', ']']) := by
        rw [skipWs_cons, if_neg]
        decide
      dsimp only
      rw [hKomma]
      simp [hrec]

theorem parseIntArray_def (cs : List Char) :
    parseIntArray cs =
      match skipWs cs with
      | c :: rest =>
        if c = '[' then
          match skipWs rest with
          | c2 :: rest2 =>
            if c2 = ']' then (if skipWs rest2 = [] then some [] else none)
            else parseItems cs.length rest
          | [] => none
        else none
      | [] => none := rfl

theorem itemsCh_length_ge (l : List Nat) : l.length ≤ (itemsCh l).length := by
  induction l with
  | nil => simp [itemsCh]
  | cons b bs ih =>
    cases bs with
    | nil => simp [itemsCh_single]
    | cons b' bs' =>
      rw [itemsCh_pair]
      simp only [List.length_append, List.length_cons] at ih ⊢
      omega

theorem itemsCh_heads (b : Nat) (bs : List Nat) :
    ∃ tail, itemsCh (b :: bs) = ' ' :: ' ' :: (decStr b ++ tail) := by
  cases bs with
  | nil => exact ⟨[], by simp [itemsCh_single]⟩
  | cons b' bs' => exact ⟨',' :: '\n' :: itemsCh (b' :: bs'), by simp [itemsCh_pair]⟩

theorem parseIntArray_render (l : List Nat) (hb : ∀ b ∈ l, b < 256) :
    parseIntArray (renderIntArrayCh l) = some l := by
  cases l with
  | nil => rfl
  | cons b bs =>
    have hb0 : b < 256 := hb b (List.mem_cons_self b bs)
    obtain ⟨tail, htail⟩ := itemsCh_heads b bs
    obtain ⟨hne, hdig, -⟩ := decStr_spec ⟨b, hb0⟩
    replace hne : decStr b ≠ [] := hne
    replace hdig : ∀ c ∈ decStr b, isDigitCh c = true := hdig
    have hrend : renderIntArrayCh (b :: bs) =
        '[' :: '\n' :: (itemsCh (b :: bs) ++ ['\n', ']']) := rfl
    have hsk1 : skipWs ('[' :: '\n' :: (itemsCh (b :: bs) ++ ['\n', ']'])) =
        '[' :: '\n' :: (itemsCh (b :: bs) ++ ['\n', ']']) := by
      rw [skipWs_cons, if_neg]
      decide
    have h2 : skipWs ('\n' :: (itemsCh (b :: bs) ++ ['\n', ']'])) =
        decStr b ++ (tail ++ ['\n', ']']) := by
      rw [htail]
      have hsplit : ('\n' : Char) :: ((' ' :: ' ' :: (decStr b ++ tail)) ++ ['\n', ']']) =
          ['\n', ' ', ' '] ++ (decStr b ++ (tail ++ ['\n', ']'])) := by
        simp
      rw [hsplit, skipWs_append_ws _ _ (by decide), skipWs_decStr b hb0]
    cases hd : decStr b with
    | nil => exact absurd hd hne
    | cons c0 ds0 =>
      have hdigc0 : isDigitCh c0 = true := by
        rw [hd] at hdig
        exact hdig c0 (List.mem_cons_self c0 ds0)
      have hc0ne : c0 ≠ ']' := digit_ne_rbracket c0 hdigc0
      rw [hd] at h2
      rw [hrend, parseIntArray_def, hsk1]
      dsimp only
      rw [if_pos (rfl : ('[' : Char) = '['), h2]
      dsimp only [List.cons_append]
      rw [if_neg hc0ne]
      have hlen : (b :: bs).length ≤
          ('[' :: '\n' :: (itemsCh (b :: bs) ++ ['\n', ']'])).length := by
        have := itemsCh_length_ge (b :: bs)
        simp only [List.length_cons, List.length_append] at this ⊢
        omega
      exact parseItems_itemsCh (b :: bs) (by simp) hb _ hlen ['\n'] (by decide)

/-- C8: rendering a private key's bytes with `privateKeyToJSON` (a JSON
array of decimal integer byte values, as src/main.go lines 29–39 produce)
and parsing that JSON array back into bytes reproduces the original byte
sequence exactly and in order. -/
theorem privateKeyToJSON_roundTrip (key : List Nat) (hbytes : ∀ b ∈ key, b < 256) :
    ∀ s : String, privateKeyToJSON key = Except.ok s → parseIntArray s.data = some key := by
  intro s hs
  have hs' : s = String.mk (renderIntArrayCh key) := by
    simp only [privateKeyToJSON, jsonMarshalIndentInts, Except.ok.injEq] at hs
    exact hs.symm
  subst hs'
  exact parseIntArray_render key hbytes

/-- Witness for C8 at the key bytes `[0, 255, 7]`. -/
theorem privateKeyToJSON_roundTrip_witness :
    parseIntArray (String.mk (renderIntArrayCh [0, 255, 7])).data = some [0, 255, 7] :=
  privateKeyToJSON_roundTrip [0, 255, 7] (by decide) _ rfl

/-! ## Invariants of the concurrent search system -/

theorem mem_of_workers_getElem (l : List WorkerState) (i : Nat) (w : WorkerState)
    (h : l[i]? = some w) : w ∈ l := by
  obtain ⟨hlt, rfl⟩ := List.getElem?_eq_some.mp h
  exact List.getElem_mem hlt

theorem sum_map_sent_set (ws : List WorkerState) :
    ∀ (i : Nat) (w w' : WorkerState), ws[i]? = some w →
      ((ws.set i w').map WorkerState.sent).sum + w.sent =
        (ws.map WorkerState.sent).sum + w'.sent := by
  induction ws with
  | nil => intro i w w' h; simp at h
  | cons a ws ih =>
    intro i w w' h
    cases i with
    | zero =>
      simp only [List.getElem?_cons_zero, Option.some.injEq] at h
      subst h
      simp only [List.set_cons_zero, List.map_cons, List.sum_cons]
      omega
    | succ n =>
      simp only [List.getElem?_cons_succ] at h
      rw [List.set_cons_succ]
      simp only [List.map_cons, List.sum_cons]
      have := ih n w w' h
      omega

theorem sentTotal_set (s : SysState) (i : Nat) (w w' : WorkerState)
    (hw : s.workers[i]? = some w) :
    sentTotal (setWorker s i w') + w.sent = sentTotal s + w'.sent :=
  sum_map_sent_set s.workers i w w' hw

theorem sentOK_set (ws : List WorkerState) (i : Nat) (w' : WorkerState)
    (hall : ∀ x ∈ ws, sentOK x) (hw' : sentOK w') :
    ∀ x ∈ ws.set i w', sentOK x := by
  intro x hx
  rcases List.mem_or_eq_of_mem_set hx with hx' | rfl
  · exact hall x hx'
  · exact hw'

theorem step_sentOK {s s' : SysState} (hstep : Step s s')
    (h : ∀ w ∈ s.workers, sentOK w) : ∀ w ∈ s'.workers, sentOK w := by
  cases hstep with
  | cancelExit i w hw hs hc =>
    refine sentOK_set s.workers i _ h ?_
    have hw0 := h w (mem_of_workers_getElem _ _ _ hw)
    simp only [sentOK, hs] at hw0
    simp only [sentOK]
    omega
  | cancelPass i w hw hs hc =>
    refine sentOK_set s.workers i _ h ?_
    have hw0 := h w (mem_of_workers_getElem _ _ _ hw)
    simp only [sentOK, hs] at hw0
    simpa only [sentOK] using hw0
  | iterSkip i w g rest hw hs hk hres =>
    refine sentOK_set s.workers i _ h ?_
    have hw0 := h w (mem_of_workers_getElem _ _ _ hw)
    simp only [sentOK, hs] at hw0
    simpa only [sentOK] using hw0
  | iterFound i w g rest r hw hs hk hres =>
    refine sentOK_set s.workers i _ h ?_
    have hw0 := h w (mem_of_workers_getElem _ _ _ hw)
    simp only [sentOK, hs] at hw0
    simpa only [sentOK] using hw0
  | publishSend i w r hw hs hslot =>
    refine sentOK_set s.workers i _ h ?_
    have hw0 := h w (mem_of_workers_getElem _ _ _ hw)
    simp only [sentOK, hs] at hw0
    simp only [sentOK]
    omega
  | publishDiscard i w r hw hs hc =>
    refine sentOK_set s.workers i _ h ?_
    have hw0 := h w (mem_of_workers_getElem _ _ _ hw)
    simp only [sentOK, hs] at hw0
    simp only [sentOK]
    omega
  | sendCancel i w hw hs =>
    refine sentOK_set s.workers i _ h ?_
    have hw0 := h w (mem_of_workers_getElem _ _ _ hw)
    simp only [sentOK, hs] at hw0
    simpa only [sentOK] using hw0
  | receive r hc hslot =>
    exact h

theorem step_conservation {s s' : SysState} (hstep : Step s s')
    (h : sentTotal s = slotCount s + receivedCount s.coord) :
    sentTotal s' = slotCount s' + receivedCount s'.coord := by
  cases hstep with
  | cancelExit i w hw hs hc =>
    have h1 := sentTotal_set s i w { w with status := .exited } hw
    dsimp only at h1
    have h2 : slotCount (setWorker s i { w with status := .exited }) = slotCount s := rfl
    have h3 : (setWorker s i { w with status := .exited }).coord = s.coord := rfl
    rw [h2, h3]
    omega
  | cancelPass i w hw hs hc =>
    have h1 := sentTotal_set s i w { w with status := .working } hw
    dsimp only at h1
    have h2 : slotCount (setWorker s i { w with status := .working }) = slotCount s := rfl
    have h3 : (setWorker s i { w with status := .working }).coord = s.coord := rfl
    rw [h2, h3]
    omega
  | iterSkip i w g rest hw hs hk hres =>
    have h1 := sentTotal_set s i w { w with status := .running, keys := rest } hw
    dsimp only at h1
    have h2 : sentTotal { setWorker s i { w with status := .running, keys := rest } with
        counter := s.counter + 1 } =
        sentTotal (setWorker s i { w with status := .running, keys := rest }) := rfl
    have h3 : slotCount { setWorker s i { w with status := .running, keys := rest } with
        counter := s.counter + 1 } = slotCount s := rfl
    have h4 : ({ setWorker s i { w with status := .running, keys := rest } with
        counter := s.counter + 1 } : SysState).coord = s.coord := rfl
    rw [h2, h3, h4]
    omega
  | iterFound i w g rest r hw hs hk hres =>
    have h1 := sentTotal_set s i w { w with status := .atPublish r, keys := rest } hw
    dsimp only at h1
    have h2 : sentTotal { setWorker s i { w with status := .atPublish r, keys := rest } with
        counter := s.counter + 1 } =
        sentTotal (setWorker s i { w with status := .atPublish r, keys := rest }) := rfl
    have h3 : slotCount { setWorker s i { w with status := .atPublish r, keys := rest } with
        counter := s.counter + 1 } = slotCount s := rfl
    have h4 : ({ setWorker s i { w with status := .atPublish r, keys := rest } with
        counter := s.counter + 1 } : SysState).coord = s.coord := rfl
    rw [h2, h3, h4]
    omega
  | publishSend i w r hw hs hslot =>
    have h1 := sentTotal_set s i w { w with status := .postSend, sent := w.sent + 1 } hw
    dsimp only at h1
    have h2 : sentTotal { setWorker s i { w with status := .postSend, sent := w.sent + 1 } with
        slot := some r } =
        sentTotal (setWorker s i { w with status := .postSend, sent := w.sent + 1 }) := rfl
    have h3 : slotCount { setWorker s i { w with status := .postSend, sent := w.sent + 1 } with
        slot := some r } = 1 := rfl
    have h4 : ({ setWorker s i { w with status := .postSend, sent := w.sent + 1 } with
        slot := some r } : SysState).coord = s.coord := rfl
    have h5 : slotCount s = 0 := by simp [slotCount, hslot]
    rw [h2, h3, h4]
    omega
  | sendCancel i w hw hs =>
    have h1 := sentTotal_set s i w { w with status := .exited } hw
    dsimp only at h1
    have h2 : sentTotal { setWorker s i { w with status := .exited } with cancelled := true } =
        sentTotal (setWorker s i { w with status := .exited }) := rfl
    have h3 : slotCount { setWorker s i { w with status := .exited } with cancelled := true } =
        slotCount s := rfl
    have h4 : ({ setWorker s i { w with status := .exited } with cancelled := true } :
        SysState).coord = s.coord := rfl
    rw [h2, h3, h4]
    omega
  | publishDiscard i w r hw hs hc =>
    have h1 := sentTotal_set s i w { w with status := .exited } hw
    dsimp only at h1
    have h2 : slotCount (setWorker s i { w with status := .exited }) = slotCount s := rfl
    have h3 : (setWorker s i { w with status := .exited }).coord = s.coord := rfl
    rw [h2, h3]
    omega
  | receive r hc hslot =>
    have h1 : sentTotal { s with slot := none, coord := .gotResult r } = sentTotal s := rfl
    have h2 : slotCount { s with slot := none, coord := .gotResult r } = 0 := rfl
    have h3 : receivedCount ({ s with slot := none, coord := .gotResult r } :
        SysState).coord = 1 := rfl
    have h4 : slotCount s = 1 := by simp [slotCount, hslot]
    have h5 : receivedCount s.coord = 0 := by simp [receivedCount, hc]
    rw [h1, h2, h3]
    omega

theorem iterate_good (cfg : SearchConfig) (g : GenOutcome) (r : Result)
    (h : iterate cfg g = some r) : goodResult r := by
  cases g with
  | genFail => simp [iterate] at h
  | genKey pk sk =>
    simp only [iterate] at h
    split at h
    · obtain rfl := (Option.some.injEq _ _).mp h
      rfl
    · exact absurd h (by simp)

theorem step_resultsOK {s s' : SysState} (hstep : Step s s') (h : resultsOK s) :
    resultsOK s' := by
  obtain ⟨hA, hB, hC⟩ := h
  cases hstep with
  | cancelExit i w hw hs hc =>
    refine ⟨?_, hB, hC⟩
    intro x hx r hr
    rcases List.mem_or_eq_of_mem_set hx with hx' | rfl
    · exact hA x hx' r hr
    · simp at hr
  | cancelPass i w hw hs hc =>
    refine ⟨?_, hB, hC⟩
    intro x hx r hr
    rcases List.mem_or_eq_of_mem_set hx with hx' | rfl
    · exact hA x hx' r hr
    · simp at hr
  | iterSkip i w g rest hw hs hk hres =>
    refine ⟨?_, hB, hC⟩
    intro x hx r hr
    rcases List.mem_or_eq_of_mem_set hx with hx' | rfl
    · exact hA x hx' r hr
    · simp at hr
  | iterFound i w g rest r hw hs hk hres =>
    refine ⟨?_, hB, hC⟩
    intro x hx r' hr'
    rcases List.mem_or_eq_of_mem_set hx with hx' | rfl
    · exact hA x hx' r' hr'
    · simp only [WStatus.atPublish.injEq] at hr'
      obtain rfl := hr'
      exact iterate_good s.cfg g r hres
  | publishSend i w r hw hs hslot =>
    refine ⟨?_, ?_, hC⟩
    · intro x hx r' hr'
      rcases List.mem_or_eq_of_mem_set hx with hx' | rfl
      · exact hA x hx' r' hr'
      · simp at hr'
    · intro r' hr'
      obtain rfl := (Option.some.injEq _ _).mp hr'
      exact hA w (mem_of_workers_getElem _ _ _ hw) r hs
  | publishDiscard i w r hw hs hc =>
    refine ⟨?_, hB, hC⟩
    intro x hx r' hr'
    rcases List.mem_or_eq_of_mem_set hx with hx' | rfl
    · exact hA x hx' r' hr'
    · simp at hr'
  | sendCancel i w hw hs =>
    refine ⟨?_, hB, hC⟩
    intro x hx r hr
    rcases List.mem_or_eq_of_mem_set hx with hx' | rfl
    · exact hA x hx' r hr
    · simp at hr
  | receive r hc hslot =>
    refine ⟨hA, ?_, ?_⟩
    · intro r' hr'
      simp at hr'
    · intro r' hr'
      simp only [CoordStatus.gotResult.injEq] at hr'
      obtain rfl := hr'
      exact hB r hslot

theorem init_inv (cfg : SearchConfig) (numCPU : Nat) (streams : List (List GenOutcome)) :
    (∀ w ∈ (initState cfg numCPU streams).workers, sentOK w) ∧
    sentTotal (initState cfg numCPU streams) =
      slotCount (initState cfg numCPU streams) +
        receivedCount (initState cfg numCPU streams).coord ∧
    resultsOK (initState cfg numCPU streams) := by
  refine ⟨?_, ?_, ?_, ?_, ?_⟩
  · intro w hw
    simp only [initState, List.mem_map] at hw
    obtain ⟨i, -, rfl⟩ := hw
    rfl
  · have hz : sentTotal (initState cfg numCPU streams) = 0 := by
      unfold sentTotal initState initWorker
      simp only [List.map_map]
      apply List.sum_eq_zero
      intro x hx
      simp only [List.mem_map] at hx
      obtain ⟨i, -, rfl⟩ := hx
      rfl
    rw [hz]
    rfl
  · intro x hx r hr
    simp only [initState, List.mem_map] at hx
    obtain ⟨i, -, rfl⟩ := hx
    simp [initWorker] at hr
  · intro r hr
    simp [initState] at hr
  · intro r hr
    simp [initState] at hr

theorem reachable_inv (cfg : SearchConfig) (numCPU : Nat)
    (streams : List (List GenOutcome)) (s : SysState)
    (h : Reachable (initState cfg numCPU streams) s) :
    (∀ w ∈ s.workers, sentOK w) ∧
    sentTotal s = slotCount s + receivedCount s.coord ∧
    resultsOK s := by
  induction h with
  | refl => exact init_inv cfg numCPU streams
  | step hr hstep ih =>
    exact ⟨step_sentOK hstep ih.1, step_conservation hstep ih.2.1,
      step_resultsOK hstep ih.2.2⟩

/-- C1: in every state reachable from a spawn (any pattern, any worker count,
any generator streams — including streams making several workers find a
qualifying address in the same instant), each worker has completed at most
one send into the capacity-one result channel (at-most-once per worker), the
coordinator — whose program performs a single blocking read — has observed at
most one `Result`, and sends are conserved: every completed send is either
still buffered in the single slot or is the one `Result` the coordinator
received, so no result is duplicated in transit and exactly one `Result` is
delivered overall once the coordinator's read completes. A worker whose
`select` takes the `ctx.Done()` arm (`publishDiscard`) leaves both the slot
and the cancellation flag untouched: it discards its losing result and exits
without re-signalling cancellation. -/
theorem search_exactly_once (cfg : SearchConfig) (numCPU : Nat)
    (streams : List (List GenOutcome)) (s : SysState)
    (h : Reachable (initState cfg numCPU streams) s) :
    (∀ w ∈ s.workers, w.sent ≤ 1) ∧
    receivedCount s.coord ≤ 1 ∧
    sentTotal s = slotCount s + receivedCount s.coord := by
  obtain ⟨hok, hcons, -⟩ := reachable_inv cfg numCPU streams s h
  refine ⟨?_, ?_, hcons⟩
  · intro w hw
    have hsw := hok w hw
    unfold sentOK at hsw
    split at hsw <;> omega
  · cases hcoord : s.coord <;> simp [receivedCount]

/-- The demo run: one worker, one generated key (address `"xyz"`, matching
the prefix `"x"`), stepped through check → iterate → publish → cancel →
receive. -/
theorem demo_reachable : Reachable (initState demoCfg 1 [[demoGen]]) demoFinal := by
  have h0 : Reachable (initState demoCfg 1 [[demoGen]]) (initState demoCfg 1 [[demoGen]]) :=
    Reachable.refl
  have h1 := Reachable.step h0
    (Step.cancelPass (initState demoCfg 1 [[demoGen]]) 0 ⟨.running, [demoGen], 0⟩
      rfl rfl rfl)
  have h2 := Reachable.step h1
    (Step.iterFound _ 0 ⟨.working, [demoGen], 0⟩ demoGen [] demoResult
      rfl rfl rfl (by decide))
  have h3 := Reachable.step h2
    (Step.publishSend _ 0 ⟨.atPublish demoResult, [], 0⟩ demoResult rfl rfl rfl)
  have h4 := Reachable.step h3
    (Step.sendCancel _ 0 ⟨.postSend, [], 1⟩ rfl rfl)
  have h5 := Reachable.step h4 (Step.receive _ demoResult rfl rfl)
  exact h5

/-- Witness for C1 at the completed demo run: its one worker sent once, the
coordinator received exactly one result, and the conservation equation holds
(1 send = 0 buffered + 1 received). -/
theorem search_exactly_once_witness :
    (∀ w ∈ demoFinal.workers, w.sent ≤ 1) ∧
    receivedCount demoFinal.coord ≤ 1 ∧
    sentTotal demoFinal = slotCount demoFinal + receivedCount demoFinal.coord :=
  search_exactly_once demoCfg 1 [[demoGen]] demoFinal demo_reachable

/-- C10: every `Result` published anywhere in a reachable state — standing at
a worker's `select`, buffered in the result channel, or received by the
coordinator — carries as its address exactly the Base58 encoding of its
public key (the worker builds it that way at src/main.go lines 102–128 and it
moves unchanged), so the report's `公钥 (Base58)` line (line 145) repeats the
found address string verbatim. -/
theorem published_address_is_encoding (cfg : SearchConfig) (numCPU : Nat)
    (streams : List (List GenOutcome)) (s : SysState)
    (h : Reachable (initState cfg numCPU streams) s) (r : Result)
    (hr : s.slot = some r ∨ s.coord = .gotResult r ∨
          ∃ w ∈ s.workers, w.status = .atPublish r) :
    r.address = base58Encode r.publicKey ∧
    finalReport r = .ok
      ["找到地址: " ++ codesStr r.address,
       "公钥 (Base58): " ++ codesStr r.address,
       "私钥 (Base58): " ++ codesStr (base58Encode r.privateKey),
       "私钥 (JSON 数组格式): " ++ String.mk (renderIntArrayCh r.privateKey)] := by
  obtain ⟨-, -, hA, hB, hC⟩ := reachable_inv cfg numCPU streams s h
  have hgood : goodResult r := by
    rcases hr with hslot | hcoord | ⟨w, hw, hst⟩
    · exact hB r hslot
    · exact hC r hcoord
    · exact hA w hw r hst
  refine ⟨hgood, ?_⟩
  unfold goodResult at hgood
  simp [finalReport, privateKeyToJSON, jsonMarshalIndentInts, hgood]

/-- Witness for C10 at the demo run's received result: its address is the
encoding of its public key and the report's public-key line repeats it. -/
theorem published_address_is_encoding_witness :
    demoResult.address = base58Encode demoResult.publicKey ∧
    finalReport demoResult = .ok
      ["找到地址: " ++ codesStr demoResult.address,
       "公钥 (Base58): " ++ codesStr demoResult.address,
       "私钥 (Base58): " ++ codesStr (base58Encode demoResult.privateKey),
       "私钥 (JSON 数组格式): " ++ String.mk (renderIntArrayCh demoResult.privateKey)] :=
  published_address_is_encoding demoCfg 1 [[demoGen]] demoFinal demo_reachable
    demoResult (Or.inr (Or.inl rfl))
